import Mathlib

/-!
Shallow embedding of `src/stellar-core/compliance-engine/contracts/audit_trail/src/lib.rs`
(Soroban contract `AuditTrailContract`) and proofs about its specification.

Modelling conventions:
* `Address` (Soroban `Address`) is an abstract identity, modelled as `Nat`.
* `Bytes` / `BytesN<32>` are byte strings, modelled as `List Nat`.
* Soroban `Map`/storage lookups are association lists with `mapGet`/`mapSet`.
* The host primitive `env.crypto().sha256` is external to the repository
  (the spec treats the hashing primitive as a trusted external service), so
  the semantics is parameterised over a hash function `sha : Bytes → Bytes`.
* A Rust `panic!` / failed `.unwrap()` aborts the invocation with no state
  change; fallible operations return `Except ContractError`.
* `env.ledger().timestamp()` is the host clock; each write call carries the
  timestamp the host supplied for it.
* `extend_ttl(key, 535680, 535680)` bumps the entry's remaining liveness to
  the fixed horizon when it is below it; TTLs are a map from storage key to
  remaining ledgers.
-/

namespace AuditTrail

/-- Soroban `Address`, used for the admin and the emitting contracts. -/
abbrev Address := Nat

/-- Byte strings (`Bytes`, `BytesN<32>`); each element is one byte. -/
abbrev Bytes := List Nat

/-- Big-endian 8-byte encoding of a `u64`, as in `timestamp.to_be_bytes()`. -/
def u64be (n : Nat) : Bytes :=
  [n / 2 ^ 56 % 256, n / 2 ^ 48 % 256, n / 2 ^ 40 % 256, n / 2 ^ 32 % 256,
   n / 2 ^ 24 % 256, n / 2 ^ 16 % 256, n / 2 ^ 8 % 256, n % 256]

/-- Lookup in an association list, modelling `Map::get` / storage `get`. -/
def mapGet {α β : Type} [DecidableEq α] : List (α × β) → α → Option β
  | [], _ => none
  | (k, v) :: m, k' => if k' = k then some v else mapGet m k'

/-- Update in an association list, modelling `Map::set` / storage `set`. -/
def mapSet {α β : Type} [DecidableEq α] : List (α × β) → α → β → List (α × β)
  | [], k, v => [(k, v)]
  | (k0, v0) :: m, k, v => if k = k0 then (k, v) :: m else (k0, v0) :: mapSet m k v

/-- The `AuditEvent` record stored for every recorded event. -/
structure AuditEvent where
  event_id : Bytes
  timestamp : Nat
  event_type : String
  emitting_contract : Address
  primary_entity_id : String
  secondary_entity_id : Option String
  event_data : String
  tx_hash : Bytes
deriving DecidableEq

/-- The contract's storage keys (`DataKey` enum). -/
inductive DataKey where
  | Admin : DataKey
  | AuthorizedEmitters : DataKey
  | Events : Bytes → DataKey
  | EntityIndex : String → DataKey
  | TypeTimeIndex : String × Nat → DataKey
  | ContractIndex : Address → DataKey
deriving DecidableEq

/-- Ways an invocation can abort (Rust panics / failed unwraps). -/
inductive ContractError where
  | AlreadyInitialized : ContractError
  | NotAuthorized : ContractError
  | MissingValue : ContractError
  | UseRecordEventAuth : ContractError
deriving DecidableEq

/-- The contract's persisted state: instance entries (`admin`, `emitters`),
persistent entries (events and the three indices), and the TTL ledger for
persistent keys. An `Option`-valued field is `none` when the storage key has
never been written (`has` is false, `get` unwraps would panic). -/
structure ContractState where
  admin : Option Address
  emitters : Option (List (Address × Bool))
  events : List (Bytes × AuditEvent)
  entityIndex : List (String × List Bytes)
  typeTimeIndex : List ((String × Nat) × List Bytes)
  contractIndex : List (Address × List Bytes)
  ttl : List (DataKey × Nat)
deriving DecidableEq

instance {ε α : Type} [DecidableEq ε] [DecidableEq α] : DecidableEq (Except ε α) := fun a b =>
  match a, b with
  | .error e, .error f => decidable_of_iff (e = f) (by simp)
  | .ok x, .ok y => decidable_of_iff (x = y) (by simp)
  | .error _, .ok _ => isFalse (by simp)
  | .ok _, .error _ => isFalse (by simp)

/-- State of a freshly deployed contract: no storage entry exists. -/
def initState : ContractState :=
  { admin := none, emitters := none, events := [], entityIndex := [],
    typeTimeIndex := [], contractIndex := [], ttl := [] }

/-- A Rust `.unwrap()` on a storage read: missing value aborts the call. -/
def exceptOfOption {α : Type} (o : Option α) : Except ContractError α :=
  o.elim (.error .MissingValue) .ok

/-- `initialize(env, admin)`: sets the admin and an empty emitter map, and
panics with "Already initialized" when the admin key already exists. -/
def initializeContract (s : ContractState) (admin : Address) :
    Except ContractError ContractState :=
  if s.admin.isSome then .error .AlreadyInitialized
  else .ok { s with admin := some admin, emitters := some [] }

/-- `authorize_emitter(env, emitter)`: admin-authenticated (the host checks
`admin.require_auth()`; the call only proceeds when it passes); sets the
emitter's flag to `true`. -/
def authorize_emitter (s : ContractState) (emitter : Address) :
    Except ContractError ContractState := do
  let _admin ← exceptOfOption s.admin
  let em ← exceptOfOption s.emitters
  .ok { s with emitters := some (mapSet em emitter true) }

/-- `revoke_emitter(env, emitter)`: admin-authenticated; sets the emitter's
flag to `false`. -/
def revoke_emitter (s : ContractState) (emitter : Address) :
    Except ContractError ContractState := do
  let _admin ← exceptOfOption s.admin
  let em ← exceptOfOption s.emitters
  .ok { s with emitters := some (mapSet em emitter false) }

/-- `is_authorized(env, emitter)`: unwraps the emitter map (panics when the
contract is uninitialized), then `get(emitter).unwrap_or(false)`. -/
def is_authorized (s : ContractState) (emitter : Address) :
    Except ContractError Bool := do
  let em ← exceptOfOption s.emitters
  .ok ((mapGet em emitter).getD false)

/-- `record_event(...)`: the exposed entry point that unconditionally panics
with "Use record_event_auth instead" before touching any storage. -/
def record_event (s : ContractState) (event_type primary_entity_id : String)
    (secondary_entity_id : Option String) (event_data : String)
    (tx_hash : Bytes) : Except ContractError (Bytes × ContractState) :=
  .error .UseRecordEventAuth

/-- The derived event identifier:
`env.crypto().sha256(tx_hash ++ timestamp.to_be_bytes())`. -/
def eventId (sha : Bytes → Bytes) (tx_hash : Bytes) (timestamp : Nat) : Bytes :=
  sha (tx_hash ++ u64be timestamp)

/-- The `AuditEvent` value built by `record_event_auth`. -/
def recordedEvent (sha : Bytes → Bytes) (emitter : Address)
    (event_type primary_entity_id : String) (secondary_entity_id : Option String)
    (event_data : String) (tx_hash : Bytes) (timestamp : Nat) : AuditEvent :=
  { event_id := eventId sha tx_hash timestamp, timestamp, event_type,
    emitting_contract := emitter, primary_entity_id, secondary_entity_id,
    event_data, tx_hash }

/-- The fixed liveness horizon: `extend_ttl(_, 535680, 535680)` (~30 days,
as the source comment says). -/
def ttlHorizon : Nat := 535680

/-- Soroban `extend_ttl(key, threshold, extend_to)` with
`threshold = extend_to = ttlHorizon`: when the remaining liveness is below
the threshold, it is raised to the horizon; otherwise it is unchanged. -/
def ttlExtend (m : List (DataKey × Nat)) (k : DataKey) : List (DataKey × Nat) :=
  if (mapGet m k).getD 0 < ttlHorizon then mapSet m k ttlHorizon else m

/-- Remaining liveness of a storage key. -/
def ttlGet (s : ContractState) (k : DataKey) : Nat :=
  (mapGet s.ttl k).getD 0

/-- The state written by a successful `record_event_auth`: the event is
stored under its identifier, the identifier is appended to the entity,
type+day and contract index buckets, and the TTL of all four keys is
extended. -/
def recordPost (sha : Bytes → Bytes) (s : ContractState) (emitter : Address)
    (event_type primary_entity_id : String) (secondary_entity_id : Option String)
    (event_data : String) (tx_hash : Bytes) (timestamp : Nat) : ContractState :=
  let event_id := eventId sha tx_hash timestamp
  let event := recordedEvent sha emitter event_type primary_entity_id
    secondary_entity_id event_data tx_hash timestamp
  let events' := mapSet s.events event_id event
  let ttl1 := ttlExtend s.ttl (DataKey.Events event_id)
  let entity_events := (mapGet s.entityIndex primary_entity_id).getD []
  let entityIndex' := mapSet s.entityIndex primary_entity_id (entity_events ++ [event_id])
  let ttl2 := ttlExtend ttl1 (DataKey.EntityIndex primary_entity_id)
  let day_timestamp := timestamp / 86400 * 86400
  let tt_events := (mapGet s.typeTimeIndex (event_type, day_timestamp)).getD []
  let typeTimeIndex' := mapSet s.typeTimeIndex (event_type, day_timestamp) (tt_events ++ [event_id])
  let ttl3 := ttlExtend ttl2 (DataKey.TypeTimeIndex (event_type, day_timestamp))
  let contract_events := (mapGet s.contractIndex emitter).getD []
  let contractIndex' := mapSet s.contractIndex emitter (contract_events ++ [event_id])
  let ttl4 := ttlExtend ttl3 (DataKey.ContractIndex emitter)
  { s with
    events := events'
    entityIndex := entityIndex'
    typeTimeIndex := typeTimeIndex'
    contractIndex := contractIndex'
    ttl := ttl4 }

/-- `record_event_auth(env, emitter, ...)`: the host verifies
`emitter.require_auth()` (the call only proceeds when it passes); the
emitter map is unwrapped (panics when uninitialized); an emitter whose flag
is not `true` is rejected; otherwise the event is stored and indexed and
the derived identifier is returned. `timestamp` is the host clock value
`env.ledger().timestamp()` for this invocation. -/
def record_event_auth (sha : Bytes → Bytes) (s : ContractState)
    (emitter : Address) (event_type primary_entity_id : String)
    (secondary_entity_id : Option String) (event_data : String)
    (tx_hash : Bytes) (timestamp : Nat) :
    Except ContractError (Bytes × ContractState) :=
  match s.emitters with
  | none => .error .MissingValue
  | some em =>
    if (mapGet em emitter).getD false then
      .ok (eventId sha tx_hash timestamp,
        recordPost sha s emitter event_type primary_entity_id
          secondary_entity_id event_data tx_hash timestamp)
    else .error .NotAuthorized

/-- `get_event(env, event_id)`: point read; `None` when absent. -/
def get_event (s : ContractState) (event_id : Bytes) : Option AuditEvent :=
  mapGet s.events event_id

/-- The read loop shared by the index queries: dereference each identifier
through the event store, skipping identifiers whose event is missing. -/
def derefAll (s : ContractState) (ids : List Bytes) : List AuditEvent :=
  ids.filterMap (fun id => mapGet s.events id)

/-- `get_events_by_entity(env, entity_id)`. -/
def get_events_by_entity (s : ContractState) (entity_id : String) : List AuditEvent :=
  derefAll s ((mapGet s.entityIndex entity_id).getD [])

/-- `2^32`; `start + limit` is `u32` addition in the source, which wraps
modulo `2^32` under release-profile Rust arithmetic. -/
def u32Mod : Nat := 4294967296

/-- `get_events_by_entity_paged(env, entity_id, start, limit)`: returns the
events for identifiers in positions `[start, min(start + limit, total))` of
the entity's index bucket, or the empty sequence when `start >= total`. -/
def get_events_by_entity_paged (s : ContractState) (entity_id : String)
    (start limit : Nat) : List AuditEvent :=
  let event_ids := (mapGet s.entityIndex entity_id).getD []
  let total := event_ids.length
  if start ≥ total then []
  else
    let stop := min ((start + limit) % u32Mod) total
    derefAll s ((event_ids.drop start).take (stop - start))

/-- `get_events_by_type_and_time(env, event_type, timestamp)`: floors the
timestamp to its day bucket and reads that bucket of the type+time index. -/
def get_events_by_type_and_time (s : ContractState) (event_type : String)
    (timestamp : Nat) : List AuditEvent :=
  let day_timestamp := timestamp / 86400 * 86400
  derefAll s ((mapGet s.typeTimeIndex (event_type, day_timestamp)).getD [])

/-- `get_events_by_contract(env, emitter)`. -/
def get_events_by_contract (s : ContractState) (emitter : Address) : List AuditEvent :=
  derefAll s ((mapGet s.contractIndex emitter).getD [])

/-- One invocation of the contract, with the host-supplied inputs it runs
under (for writes, the host clock value at that call). -/
inductive Op where
  | initializeContract : Address → Op
  | authorize_emitter : Address → Op
  | revoke_emitter : Address → Op
  | record_event : String → String → Option String → String → Bytes → Op
  | record_event_auth : Address → String → String → Option String → String → Bytes → Nat → Op
deriving DecidableEq

/-- The state transformer of one invocation, as an `Except`. -/
def stepResult (sha : Bytes → Bytes) (s : ContractState) : Op → Except ContractError ContractState
  | Op.initializeContract a => initializeContract s a
  | Op.authorize_emitter e => authorize_emitter s e
  | Op.revoke_emitter e => revoke_emitter s e
  | Op.record_event et pid sid d tx => (record_event s et pid sid d tx).map (·.2)
  | Op.record_event_auth em et pid sid d tx ts =>
      (record_event_auth sha s em et pid sid d tx ts).map (·.2)

/-- Applying one invocation: a failed (panicking) call commits nothing. -/
def applyOp (sha : Bytes → Bytes) (s : ContractState) (op : Op) : ContractState :=
  match stepResult sha s op with
  | .ok s' => s'
  | .error _ => s

/-- Running a sequence of invocations from a fresh deployment. -/
def run (sha : Bytes → Bytes) (tr : List Op) : ContractState :=
  tr.foldl (applyOp sha) initState

/-- A concrete stand-in for the host hash, used to evaluate closed runs of
the model (the claims below use only that the hash is a function of its
input, which holds for the host's sha256 as well). -/
def idSha : Bytes → Bytes := fun b => b

/-- A throwaway event value, used only as the `getD` default in proofs. -/
def dummyEvent : AuditEvent :=
  { event_id := [], timestamp := 0, event_type := "", emitting_contract := 0,
    primary_entity_id := "", secondary_entity_id := none, event_data := "",
    tx_hash := [] }

theorem mapGet_mapSet_self {α β : Type} [DecidableEq α]
    (m : List (α × β)) (k : α) (v : β) : mapGet (mapSet m k v) k = some v := by
  induction m with
  | nil => simp [mapGet, mapSet]
  | cons hd tl ih =>
    obtain ⟨k0, v0⟩ := hd
    by_cases h : k = k0
    · simp [mapGet, mapSet, h]
    · simp [mapGet, mapSet, h, ih]

theorem mapGet_mapSet_ne {α β : Type} [DecidableEq α]
    (m : List (α × β)) (k k' : α) (v : β) (h : k' ≠ k) :
    mapGet (mapSet m k v) k' = mapGet m k' := by
  induction m with
  | nil => simp [mapGet, mapSet, h]
  | cons hd tl ih =>
    obtain ⟨k0, v0⟩ := hd
    by_cases hk : k = k0
    · subst hk; simp [mapGet, mapSet, h]
    · by_cases hk' : k' = k0 <;> simp [mapGet, mapSet, hk, hk', ih]

theorem mapGet_mapSet_isSome {α β : Type} [DecidableEq α]
    (m : List (α × β)) (k x : α) (v : β) (h : (mapGet m x).isSome) :
    (mapGet (mapSet m k v) x).isSome := by
  by_cases hx : x = k
  · subst hx; simp [mapGet_mapSet_self]
  · rwa [mapGet_mapSet_ne m k x v hx]

theorem derefAll_eq_map (s : ContractState) (ids : List Bytes)
    (h : ∀ x ∈ ids, (mapGet s.events x).isSome) :
    derefAll s ids = ids.map (fun x => (mapGet s.events x).getD dummyEvent) := by
  induction ids with
  | nil => rfl
  | cons hd tl ih =>
    obtain ⟨e, he⟩ := Option.isSome_iff_exists.mp (h hd (by simp))
    simp only [derefAll, List.filterMap_cons, he, List.map_cons, Option.getD_some]
    exact congrArg (e :: ·) (ih (fun x hx => h x (by simp [hx])))

theorem derefAll_append (s : ContractState) (l₁ l₂ : List Bytes) :
    derefAll s (l₁ ++ l₂) = derefAll s l₁ ++ derefAll s l₂ :=
  List.filterMap_append l₁ l₂ _

/-- Success characterization of `record_event_auth`: it returns `ok` exactly
when the emitter map exists and the emitter's flag is `true`, and then the
result is the derived identifier together with `recordPost`. -/
theorem record_event_auth_ok_iff (sha : Bytes → Bytes) (s : ContractState)
    (emitter : Address) (et pid : String) (sid : Option String) (d : String)
    (tx : Bytes) (ts : Nat) (r : Bytes × ContractState) :
    record_event_auth sha s emitter et pid sid d tx ts = .ok r ↔
      ∃ m, s.emitters = some m ∧ (mapGet m emitter).getD false = true ∧
        r = (eventId sha tx ts, recordPost sha s emitter et pid sid d tx ts) := by
  cases hm : s.emitters with
  | none => simp [record_event_auth, hm]
  | some m =>
    by_cases hflag : (mapGet m emitter).getD false = true
    · constructor
      · intro h
        simp only [record_event_auth, hm, hflag, if_true] at h
        cases h
        exact ⟨m, rfl, hflag, rfl⟩
      · rintro ⟨m', hm', hflag', rfl⟩
        simp only [record_event_auth, hm, hflag, if_true]
    · simp [record_event_auth, hm, hflag]

/-- Failure characterization: a flag that is not `true` yields
`NotAuthorized` (given the emitter map exists). -/
theorem record_event_auth_notAuthorized (sha : Bytes → Bytes)
    (s : ContractState) (emitter : Address) (et pid : String)
    (sid : Option String) (d : String) (tx : Bytes) (ts : Nat)
    (m : List (Address × Bool)) (hm : s.emitters = some m)
    (hflag : (mapGet m emitter).getD false = false) :
    record_event_auth sha s emitter et pid sid d tx ts = .error .NotAuthorized := by
  simp [record_event_auth, hm, hflag]

/-- Referential integrity: every identifier sitting in any index bucket
resolves to an event in the store. Holds in every reachable state. -/
def WF (s : ContractState) : Prop :=
  (∀ k ids, mapGet s.entityIndex k = some ids → ∀ x ∈ ids, (mapGet s.events x).isSome) ∧
  (∀ k ids, mapGet s.typeTimeIndex k = some ids → ∀ x ∈ ids, (mapGet s.events x).isSome) ∧
  (∀ k ids, mapGet s.contractIndex k = some ids → ∀ x ∈ ids, (mapGet s.events x).isSome)

/-- Key consistency: every stored event carries its own storage key as its
`event_id`. Holds in every reachable state. -/
def KC (s : ContractState) : Prop :=
  ∀ x e, mapGet s.events x = some e → e.event_id = x

/-- Appending a fresh-or-not identifier to one bucket of an index while
adding the event for it preserves referential integrity of that index. -/
theorem bucket_wf_update {κ : Type} [DecidableEq κ]
    (events : List (Bytes × AuditEvent)) (idx : List (κ × List Bytes))
    (id : Bytes) (ev : AuditEvent) (kk : κ)
    (h : ∀ k ids, mapGet idx k = some ids → ∀ x ∈ ids, (mapGet events x).isSome) :
    ∀ k ids, mapGet (mapSet idx kk ((mapGet idx kk).getD [] ++ [id])) k = some ids →
      ∀ x ∈ ids, (mapGet (mapSet events id ev) x).isSome := by
  intro k ids hk x hx
  by_cases hkk : k = kk
  · subst hkk
    rw [mapGet_mapSet_self] at hk
    cases hk
    rcases List.mem_append.mp hx with hxl | hxr
    · cases hbucket : mapGet idx k with
      | none => simp [hbucket] at hxl
      | some old =>
        exact mapGet_mapSet_isSome _ _ _ _
          (h k old hbucket x (by simpa [hbucket] using hxl))
    · have : x = id := by simpa using hxr
      subst this
      simp [mapGet_mapSet_self]
  · rw [mapGet_mapSet_ne _ _ _ _ hkk] at hk
    exact mapGet_mapSet_isSome _ _ _ _ (h k ids hk x hx)

/-- Case analysis of one invocation: either the call aborts (state kept), or
it is one of the four state-changing success cases. -/
theorem applyOp_eq (sha : Bytes → Bytes) (s : ContractState) (op : Op) :
    applyOp sha s op = s ∨
    (∃ a, op = Op.initializeContract a ∧ s.admin = none ∧
      applyOp sha s op = { s with admin := some a, emitters := some [] }) ∨
    (∃ e m, op = Op.authorize_emitter e ∧ s.emitters = some m ∧
      applyOp sha s op = { s with emitters := some (mapSet m e true) }) ∨
    (∃ e m, op = Op.revoke_emitter e ∧ s.emitters = some m ∧
      applyOp sha s op = { s with emitters := some (mapSet m e false) }) ∨
    (∃ em et pid sid d tx ts, op = Op.record_event_auth em et pid sid d tx ts ∧
      applyOp sha s op = recordPost sha s em et pid sid d tx ts) := by
  cases op with
  | initializeContract a =>
    cases hadm : s.admin with
    | none =>
      refine Or.inr (Or.inl ⟨a, rfl, rfl, ?_⟩)
      simp [applyOp, stepResult, initializeContract, hadm]
    | some a0 =>
      refine Or.inl ?_
      simp [applyOp, stepResult, initializeContract, hadm]
  | authorize_emitter e =>
    cases hadm : s.admin with
    | none =>
      refine Or.inl ?_
      simp [applyOp, stepResult, authorize_emitter, exceptOfOption, hadm,
        Bind.bind, Except.bind, Except.map]
    | some a0 =>
      cases hem : s.emitters with
      | none =>
        refine Or.inl ?_
        simp [applyOp, stepResult, authorize_emitter, exceptOfOption, hadm, hem,
          Bind.bind, Except.bind, Except.map]
      | some m =>
        refine Or.inr (Or.inr (Or.inl ⟨e, m, rfl, rfl, ?_⟩))
        simp [applyOp, stepResult, authorize_emitter, exceptOfOption, hadm, hem,
          Bind.bind, Except.bind, Except.map]
  | revoke_emitter e =>
    cases hadm : s.admin with
    | none =>
      refine Or.inl ?_
      simp [applyOp, stepResult, revoke_emitter, exceptOfOption, hadm,
        Bind.bind, Except.bind, Except.map]
    | some a0 =>
      cases hem : s.emitters with
      | none =>
        refine Or.inl ?_
        simp [applyOp, stepResult, revoke_emitter, exceptOfOption, hadm, hem,
          Bind.bind, Except.bind, Except.map]
      | some m =>
        refine Or.inr (Or.inr (Or.inr (Or.inl ⟨e, m, rfl, rfl, ?_⟩)))
        simp [applyOp, stepResult, revoke_emitter, exceptOfOption, hadm, hem,
          Bind.bind, Except.bind, Except.map]
  | record_event et pid sid d tx =>
    refine Or.inl ?_
    simp [applyOp, stepResult, record_event, Except.map]
  | record_event_auth em et pid sid d tx ts =>
    cases hem : s.emitters with
    | none =>
      refine Or.inl ?_
      simp [applyOp, stepResult, record_event_auth, hem, Except.map]
    | some m =>
      by_cases hflag : (mapGet m em).getD false = true
      · refine Or.inr (Or.inr (Or.inr (Or.inr ⟨em, et, pid, sid, d, tx, ts, rfl, ?_⟩)))
        simp [applyOp, stepResult, record_event_auth, hem, hflag, Except.map]
      · refine Or.inl ?_
        simp [applyOp, stepResult, record_event_auth, hem, hflag, Except.map]

theorem wf_of_same_core (s t : ContractState) (h : WF s)
    (he : t.events = s.events) (h1 : t.entityIndex = s.entityIndex)
    (h2 : t.typeTimeIndex = s.typeTimeIndex)
    (h3 : t.contractIndex = s.contractIndex) : WF t := by
  refine ⟨?_, ?_, ?_⟩ <;> rw [he]
  · rw [h1]; exact h.1
  · rw [h2]; exact h.2.1
  · rw [h3]; exact h.2.2

theorem wf_recordPost (sha : Bytes → Bytes) (s : ContractState) (em : Address)
    (et pid : String) (sid : Option String) (d : String) (tx : Bytes) (ts : Nat)
    (h : WF s) : WF (recordPost sha s em et pid sid d tx ts) := by
  obtain ⟨h1, h2, h3⟩ := h
  exact ⟨bucket_wf_update s.events s.entityIndex _ _ pid h1,
    bucket_wf_update s.events s.typeTimeIndex _ _ (et, ts / 86400 * 86400) h2,
    bucket_wf_update s.events s.contractIndex _ _ em h3⟩

theorem wf_applyOp (sha : Bytes → Bytes) (s : ContractState) (op : Op)
    (h : WF s) : WF (applyOp sha s op) := by
  rcases applyOp_eq sha s op with heq | ⟨a, _, _, heq⟩ | ⟨e, m, _, _, heq⟩ |
    ⟨e, m, _, _, heq⟩ | ⟨em, et, pid, sid, d, tx, ts, _, heq⟩ <;> rw [heq]
  · exact h
  · exact wf_of_same_core s _ h rfl rfl rfl rfl
  · exact wf_of_same_core s _ h rfl rfl rfl rfl
  · exact wf_of_same_core s _ h rfl rfl rfl rfl
  · exact wf_recordPost sha s em et pid sid d tx ts h

theorem wf_initState : WF initState := by
  refine ⟨?_, ?_, ?_⟩ <;> intro k ids hk <;> simp [initState, mapGet] at hk

theorem wf_run (sha : Bytes → Bytes) (tr : List Op) : WF (run sha tr) := by
  suffices h : ∀ s, WF s → WF (tr.foldl (applyOp sha) s) from h initState wf_initState
  induction tr with
  | nil => exact fun s hs => hs
  | cons op tl ih => exact fun s hs => ih _ (wf_applyOp sha s op hs)

theorem kc_recordPost (sha : Bytes → Bytes) (s : ContractState) (em : Address)
    (et pid : String) (sid : Option String) (d : String) (tx : Bytes) (ts : Nat)
    (h : KC s) : KC (recordPost sha s em et pid sid d tx ts) := by
  intro x e hx
  have hx' : mapGet (mapSet s.events (eventId sha tx ts)
      (recordedEvent sha em et pid sid d tx ts)) x = some e := hx
  by_cases hxi : x = eventId sha tx ts
  · subst hxi
    rw [mapGet_mapSet_self] at hx'
    cases hx'
    rfl
  · rw [mapGet_mapSet_ne _ _ _ _ hxi] at hx'
    exact h x e hx'

theorem kc_applyOp (sha : Bytes → Bytes) (s : ContractState) (op : Op)
    (h : KC s) : KC (applyOp sha s op) := by
  rcases applyOp_eq sha s op with heq | ⟨a, _, _, heq⟩ | ⟨e, m, _, _, heq⟩ |
    ⟨e, m, _, _, heq⟩ | ⟨em, et, pid, sid, d, tx, ts, _, heq⟩ <;> rw [heq]
  · exact h
  · exact h
  · exact h
  · exact h
  · exact kc_recordPost sha s em et pid sid d tx ts h

theorem kc_run (sha : Bytes → Bytes) (tr : List Op) : KC (run sha tr) := by
  suffices h : ∀ s, KC s → KC (tr.foldl (applyOp sha) s) from
    h initState (fun x e hx => by simp [initState, mapGet] at hx)
  induction tr with
  | nil => exact fun s hs => hs
  | cons op tl ih => exact fun s hs => ih _ (kc_applyOp sha s op hs)

theorem recordPost_events (sha : Bytes → Bytes) (s : ContractState) (em : Address)
    (et pid : String) (sid : Option String) (d : String) (tx : Bytes) (ts : Nat) :
    (recordPost sha s em et pid sid d tx ts).events =
      mapSet s.events (eventId sha tx ts) (recordedEvent sha em et pid sid d tx ts) := rfl

theorem recordPost_emitters (sha : Bytes → Bytes) (s : ContractState) (em : Address)
    (et pid : String) (sid : Option String) (d : String) (tx : Bytes) (ts : Nat) :
    (recordPost sha s em et pid sid d tx ts).emitters = s.emitters := rfl

theorem recordPost_admin (sha : Bytes → Bytes) (s : ContractState) (em : Address)
    (et pid : String) (sid : Option String) (d : String) (tx : Bytes) (ts : Nat) :
    (recordPost sha s em et pid sid d tx ts).admin = s.admin := rfl

theorem recordPost_entityIndex (sha : Bytes → Bytes) (s : ContractState) (em : Address)
    (et pid : String) (sid : Option String) (d : String) (tx : Bytes) (ts : Nat) :
    (recordPost sha s em et pid sid d tx ts).entityIndex =
      mapSet s.entityIndex pid
        ((mapGet s.entityIndex pid).getD [] ++ [eventId sha tx ts]) := rfl

theorem recordPost_typeTimeIndex (sha : Bytes → Bytes) (s : ContractState) (em : Address)
    (et pid : String) (sid : Option String) (d : String) (tx : Bytes) (ts : Nat) :
    (recordPost sha s em et pid sid d tx ts).typeTimeIndex =
      mapSet s.typeTimeIndex (et, ts / 86400 * 86400)
        ((mapGet s.typeTimeIndex (et, ts / 86400 * 86400)).getD [] ++ [eventId sha tx ts]) := rfl

theorem recordPost_contractIndex (sha : Bytes → Bytes) (s : ContractState) (em : Address)
    (et pid : String) (sid : Option String) (d : String) (tx : Bytes) (ts : Nat) :
    (recordPost sha s em et pid sid d tx ts).contractIndex =
      mapSet s.contractIndex em
        ((mapGet s.contractIndex em).getD [] ++ [eventId sha tx ts]) := rfl

theorem recordPost_ttl (sha : Bytes → Bytes) (s : ContractState) (em : Address)
    (et pid : String) (sid : Option String) (d : String) (tx : Bytes) (ts : Nat) :
    (recordPost sha s em et pid sid d tx ts).ttl =
      ttlExtend (ttlExtend (ttlExtend (ttlExtend s.ttl
        (DataKey.Events (eventId sha tx ts)))
        (DataKey.EntityIndex pid))
        (DataKey.TypeTimeIndex (et, ts / 86400 * 86400)))
        (DataKey.ContractIndex em) := rfl

theorem ttlExtend_self (m : List (DataKey × Nat)) (k : DataKey) :
    ttlHorizon ≤ (mapGet (ttlExtend m k) k).getD 0 := by
  unfold ttlExtend
  by_cases hc : (mapGet m k).getD 0 < ttlHorizon
  · rw [if_pos hc, mapGet_mapSet_self]
    exact le_refl _
  · rw [if_neg hc]
    omega

theorem ttlExtend_other (m : List (DataKey × Nat)) (k k' : DataKey) (h : k' ≠ k) :
    mapGet (ttlExtend m k) k' = mapGet m k' := by
  unfold ttlExtend
  by_cases hc : (mapGet m k).getD 0 < ttlHorizon
  · rw [if_pos hc, mapGet_mapSet_ne m k k' ttlHorizon h]
  · rw [if_neg hc]

/-- The admin identity, once set, is preserved by every invocation. -/
theorem admin_applyOp (sha : Bytes → Bytes) (s : ContractState) (op : Op)
    (a0 : Address) (h : s.admin = some a0) : (applyOp sha s op).admin = some a0 := by
  rcases applyOp_eq sha s op with heq | ⟨a, _, hadm, heq⟩ | ⟨e, m, _, _, heq⟩ |
    ⟨e, m, _, _, heq⟩ | ⟨em, et, pid, sid, d, tx, ts, _, heq⟩ <;> rw [heq]
  · exact h
  · rw [h] at hadm; cases hadm
  · exact h
  · exact h
  · rw [recordPost_admin]; exact h

/-- Which invocations store an event under the given identifier. Only a
`record_event_auth` call whose derived identifier is `id` ever does. -/
def opStoresId (sha : Bytes → Bytes) (id : Bytes) : Op → Prop
  | Op.record_event_auth _ _ _ _ _ tx ts => eventId sha tx ts = id
  | _ => False

instance (sha : Bytes → Bytes) (id : Bytes) : (op : Op) → Decidable (opStoresId sha id op)
  | Op.initializeContract _ => isFalse (fun h => h)
  | Op.authorize_emitter _ => isFalse (fun h => h)
  | Op.revoke_emitter _ => isFalse (fun h => h)
  | Op.record_event _ _ _ _ _ => isFalse (fun h => h)
  | Op.record_event_auth _ _ _ _ _ tx ts =>
      if h : eventId sha tx ts = id then isTrue h else isFalse h

theorem not_stored_applyOp (sha : Bytes → Bytes) (s : ContractState) (op : Op)
    (id : Bytes) (h : mapGet s.events id = none) (hop : ¬ opStoresId sha id op) :
    mapGet (applyOp sha s op).events id = none := by
  rcases applyOp_eq sha s op with heq | ⟨a, _, _, heq⟩ | ⟨e, m, _, _, heq⟩ |
    ⟨e, m, _, _, heq⟩ | ⟨em, et, pid, sid, d, tx, ts, hopEq, heq⟩ <;> rw [heq]
  · exact h
  · exact h
  · exact h
  · exact h
  · rw [recordPost_events]
    subst hopEq
    have hne : id ≠ eventId sha tx ts := fun hh => hop hh.symm
    rw [mapGet_mapSet_ne s.events (eventId sha tx ts) id _ hne]
    exact h

theorem not_stored_foldl (sha : Bytes → Bytes) (id : Bytes) (l : List Op) :
    ∀ s, mapGet s.events id = none → (∀ op ∈ l, ¬ opStoresId sha id op) →
      mapGet (l.foldl (applyOp sha) s).events id = none := by
  induction l with
  | nil => exact fun s hs _ => hs
  | cons op tl ih =>
    intro s hs hl
    exact ih _ (not_stored_applyOp sha s op id hs (hl op (List.mem_cons_self op tl)))
      (fun o ho => hl o (List.mem_cons_of_mem op ho))

/-- The allow-list never maps `e` to `true` (also vacuously true while the
allow-list does not exist). -/
def FlagNotTrue (e : Address) (s : ContractState) : Prop :=
  ∀ m, s.emitters = some m → mapGet m e ≠ some true

theorem flagNotTrue_applyOp (sha : Bytes → Bytes) (s : ContractState) (op : Op)
    (e : Address) (h : FlagNotTrue e s) (hop : op ≠ Op.authorize_emitter e) :
    FlagNotTrue e (applyOp sha s op) := by
  rcases applyOp_eq sha s op with heq | ⟨a, _, _, heq⟩ | ⟨e', m, hopEq, hem, heq⟩ |
    ⟨e', m, hopEq, hem, heq⟩ | ⟨em, et, pid, sid, d, tx, ts, _, heq⟩ <;> rw [heq]
  · exact h
  · intro m' hm'
    obtain rfl : ([] : List (Address × Bool)) = m' := by simpa using hm'
    simp [mapGet]
  · intro m' hm'
    obtain rfl : mapSet m e' true = m' := by simpa using hm'
    have he' : e ≠ e' := fun hh => hop (by rw [hopEq, hh])
    rw [mapGet_mapSet_ne m e' e true he']
    exact h m hem
  · intro m' hm'
    obtain rfl : mapSet m e' false = m' := by simpa using hm'
    by_cases he' : e = e'
    · subst he'
      rw [mapGet_mapSet_self]
      simp
    · rw [mapGet_mapSet_ne m e' e false he']
      exact h m hem
  · intro m' hm'
    rw [recordPost_emitters] at hm'
    exact h m' hm'

theorem flagNotTrue_foldl (sha : Bytes → Bytes) (e : Address) (l : List Op) :
    ∀ s, FlagNotTrue e s → Op.authorize_emitter e ∉ l →
      FlagNotTrue e (l.foldl (applyOp sha) s) := by
  induction l with
  | nil => exact fun s hs _ => hs
  | cons op tl ih =>
    intro s hs hmem
    have h1 : op ≠ Op.authorize_emitter e :=
      fun hh => hmem (by rw [hh]; exact List.mem_cons_self _ _)
    have h2 : Op.authorize_emitter e ∉ tl :=
      fun hh => hmem (List.mem_cons_of_mem op hh)
    exact ih _ (flagNotTrue_applyOp sha s op e hs h1) h2

theorem flagNotTrue_run (sha : Bytes → Bytes) (e : Address) (tr : List Op)
    (htr : Op.authorize_emitter e ∉ tr) : FlagNotTrue e (run sha tr) :=
  flagNotTrue_foldl sha e tr initState (fun m hm => by cases hm) htr

theorem getD_false_of_ne_some_true (o : Option Bool) (h : o ≠ some true) :
    o.getD false = false := by
  cases o with
  | none => rfl
  | some b => cases b with
    | false => rfl
    | true => exact absurd rfl h

/-- Success characterization of `revoke_emitter`. -/
theorem revoke_emitter_ok (s : ContractState) (e : Address) (s' : ContractState)
    (h : revoke_emitter s e = .ok s') :
    ∃ m, s.emitters = some m ∧ s' = { s with emitters := some (mapSet m e false) } := by
  cases hadm : s.admin with
  | none => simp [revoke_emitter, exceptOfOption, hadm, Bind.bind, Except.bind] at h
  | some a0 =>
    cases hem : s.emitters with
    | none => simp [revoke_emitter, exceptOfOption, hadm, hem, Bind.bind, Except.bind] at h
    | some m =>
      refine ⟨m, rfl, ?_⟩
      simp [revoke_emitter, exceptOfOption, hadm, hem, Bind.bind, Except.bind] at h
      exact h.symm

/-- In a post-state whose event store is the pre-state's plus a fresh event
`ev` under key `id`, the bucket `old ++ [id]` dereferences to exactly one
event carrying `event_id = id`. -/
theorem count_one_in_bucket (s t : ContractState) (id : Bytes) (ev : AuditEvent)
    (old : List Bytes)
    (ht : t.events = mapSet s.events id ev)
    (hev : ev.event_id = id)
    (hfresh : mapGet s.events id = none)
    (hkc : KC s)
    (hold : ∀ x ∈ old, (mapGet s.events x).isSome) :
    ((derefAll t (old ++ [id])).filter (fun e => e.event_id = id)).length = 1 := by
  rw [derefAll_append, List.filter_append]
  have h1 : (derefAll t old).filter (fun e => e.event_id = id) = [] := by
    rw [List.filter_eq_nil_iff]
    intro e he
    obtain ⟨x, hx, hxe⟩ := List.mem_filterMap.mp he
    have hxid : x ≠ id := by
      intro hh
      have hsome := hold x hx
      rw [hh, hfresh] at hsome
      simp at hsome
    rw [ht, mapGet_mapSet_ne s.events id x ev hxid] at hxe
    have hx' := hkc x e hxe
    simp [hx', hxid]
  have h2 : derefAll t [id] = [ev] := by
    simp [derefAll, ht, mapGet_mapSet_self]
  rw [h1, h2]
  simp [hev]

/-- C3 (amended): in every reachable state, `get_events_by_entity_paged`
returns the empty sequence when `start >= total`, and otherwise — provided
the `u32` sum `start + limit` does not overflow — exactly
`min(limit, total - start)` events, namely the slice `[start, start+limit)`
of the full by-entity sequence in original write order. (When `start + limit`
overflows `u32`, the source computes `min((start + limit) mod 2^32, total)`
as the stop bound and can return fewer events; see the counterexample.) -/
theorem C3_paged_slice (sha : Bytes → Bytes) (tr : List Op) (entity_id : String)
    (start limit : Nat) (hlim : start + limit < u32Mod) :
    (((mapGet (run sha tr).entityIndex entity_id).getD []).length ≤ start →
       get_events_by_entity_paged (run sha tr) entity_id start limit = []) ∧
    (start < ((mapGet (run sha tr).entityIndex entity_id).getD []).length →
       (get_events_by_entity_paged (run sha tr) entity_id start limit).length =
         min limit (((mapGet (run sha tr).entityIndex entity_id).getD []).length - start) ∧
       get_events_by_entity_paged (run sha tr) entity_id start limit =
         ((get_events_by_entity (run sha tr) entity_id).drop start).take limit) := by
  constructor
  · intro hge
    unfold get_events_by_entity_paged
    rw [if_pos hge]
  · intro hlt
    have hids : ∀ x ∈ (mapGet (run sha tr).entityIndex entity_id).getD [],
        (mapGet (run sha tr).events x).isSome := by
      cases hb : mapGet (run sha tr).entityIndex entity_id with
      | none => simp [hb]
      | some l =>
        intro x hx
        exact (wf_run sha tr).1 entity_id l hb x (by simpa [hb] using hx)
    have hmod : (start + limit) % u32Mod = start + limit := Nat.mod_eq_of_lt hlim
    have hstop :
        get_events_by_entity_paged (run sha tr) entity_id start limit =
          derefAll (run sha tr)
            ((((mapGet (run sha tr).entityIndex entity_id).getD []).drop start).take
              (min (start + limit) (((mapGet (run sha tr).entityIndex entity_id).getD []).length) - start)) := by
      unfold get_events_by_entity_paged
      rw [if_neg (by omega), hmod]
    have hsub : ∀ x ∈ (((mapGet (run sha tr).entityIndex entity_id).getD []).drop start).take
        (min (start + limit) (((mapGet (run sha tr).entityIndex entity_id).getD []).length) - start),
        (mapGet (run sha tr).events x).isSome :=
      fun x hx => hids x (List.mem_of_mem_drop (List.mem_of_mem_take hx))
    constructor
    · rw [hstop, derefAll_eq_map _ _ hsub, List.length_map, List.length_take,
        List.length_drop]
      omega
    · rw [hstop, derefAll_eq_map _ _ hsub]
      unfold get_events_by_entity
      rw [derefAll_eq_map _ _ hids, ← List.map_drop, ← List.map_take]
      have htake : (((mapGet (run sha tr).entityIndex entity_id).getD []).drop start).take
            (min (start + limit) (((mapGet (run sha tr).entityIndex entity_id).getD []).length) - start) =
          (((mapGet (run sha tr).entityIndex entity_id).getD []).drop start).take limit := by
        rw [List.take_eq_take, List.length_drop]
        omega
      rw [htake]

/-- C1 counterexample: a second `record_event_auth` call with the same
`(tx_hash, timestamp)` does not fail with a duplicate-identifier error — it
succeeds and returns the same identifier, even though an event already sits
at that key (third conjunct). The source performs no duplicate check before
`set`. -/
theorem C1_counterexample :
    (record_event_auth idSha (run idSha [Op.initializeContract 0, Op.authorize_emitter 1,
        Op.record_event_auth 1 "T" "E" none "d" [7] 5]) 1 "T" "E" none "d" [7] 5).isOk = true ∧
    (record_event_auth idSha (run idSha [Op.initializeContract 0, Op.authorize_emitter 1,
        Op.record_event_auth 1 "T" "E" none "d" [7] 5]) 1 "T" "E" none "d" [7] 5).toOption.map
        Prod.fst = some (eventId idSha [7] 5) ∧
    (get_event (run idSha [Op.initializeContract 0, Op.authorize_emitter 1,
        Op.record_event_auth 1 "T" "E" none "d" [7] 5]) (eventId idSha [7] 5)).isSome = true := by
  decide

/-- C1 (amended): two `record_event_auth` calls with identical
`(tx_hash, timestamp)` derive the same identifier, but the second call does
not fail: it succeeds, returns the same identifier, overwrites the stored
event at that key, and appends the identifier to the entity index bucket a
second time. -/
theorem C1_duplicate_overwrites (sha : Bytes → Bytes) (s : ContractState)
    (em : Address) (et pid : String) (sid : Option String) (d : String)
    (tx : Bytes) (ts : Nat) (id₁ : Bytes) (s₁ : ContractState)
    (h₁ : record_event_auth sha s em et pid sid d tx ts = .ok (id₁, s₁)) :
    ∃ s₂, record_event_auth sha s₁ em et pid sid d tx ts = .ok (id₁, s₂) ∧
      mapGet s₂.events id₁ = some (recordedEvent sha em et pid sid d tx ts) ∧
      (mapGet s₂.entityIndex pid).getD [] =
        (mapGet s₁.entityIndex pid).getD [] ++ [id₁] := by
  obtain ⟨m, hm, hflag, hr⟩ :=
    (record_event_auth_ok_iff sha s em et pid sid d tx ts _).mp h₁
  have hid : id₁ = eventId sha tx ts := congrArg Prod.fst hr
  have hs₁ : s₁ = recordPost sha s em et pid sid d tx ts := congrArg Prod.snd hr
  refine ⟨recordPost sha s₁ em et pid sid d tx ts, ?_, ?_, ?_⟩
  · refine (record_event_auth_ok_iff sha s₁ em et pid sid d tx ts _).mpr
      ⟨m, ?_, hflag, ?_⟩
    · rw [hs₁, recordPost_emitters]
      exact hm
    · rw [hid]
  · rw [recordPost_events, hid, mapGet_mapSet_self]
  · rw [recordPost_entityIndex, hid, mapGet_mapSet_self, Option.getD_some]

/-- Witness for C1 (amended) at a concrete duplicate submission. -/
theorem C1_duplicate_overwrites_witness :
    ∃ s₂, record_event_auth idSha (recordPost idSha (run idSha [Op.initializeContract 0,
        Op.authorize_emitter 1]) 1 "T" "E" none "d" [7] 5) 1 "T" "E" none "d" [7] 5 =
        .ok (eventId idSha [7] 5, s₂) ∧
      mapGet s₂.events (eventId idSha [7] 5) =
        some (recordedEvent idSha 1 "T" "E" none "d" [7] 5) ∧
      (mapGet s₂.entityIndex "E").getD [] =
        (mapGet (recordPost idSha (run idSha [Op.initializeContract 0,
          Op.authorize_emitter 1]) 1 "T" "E" none "d" [7] 5).entityIndex "E").getD []
          ++ [eventId idSha [7] 5] :=
  C1_duplicate_overwrites idSha
    (run idSha [Op.initializeContract 0, Op.authorize_emitter 1])
    1 "T" "E" none "d" [7] 5 (eventId idSha [7] 5)
    (recordPost idSha (run idSha [Op.initializeContract 0, Op.authorize_emitter 1])
      1 "T" "E" none "d" [7] 5) (by decide)

/-- C2 counterexample: after two successful `record_event_auth` calls with
the same `(tx_hash, timestamp)`, the shared identifier appears twice — not
exactly once — in the sequence returned by `get_events_by_entity`. -/
theorem C2_counterexample :
    ((get_events_by_entity (run idSha [Op.initializeContract 0, Op.authorize_emitter 1,
        Op.record_event_auth 1 "T" "E" none "d" [7] 5,
        Op.record_event_auth 1 "T" "E" none "d" [7] 5]) "E").filter
      (fun e => e.event_id = eventId idSha [7] 5)).length = 2 := by
  decide

/-- C2 (amended): a successful `record_event_auth` call whose derived
identifier is fresh (no event is stored under it yet) yields an identifier
that appears exactly once in `get_events_by_entity` of the primary entity,
exactly once in `get_events_by_contract` of the emitter, and exactly once in
`get_events_by_type_and_time` for the event type and any timestamp of the
same day bucket. (Without freshness the identifier is appended again and
appears more than once; see the counterexample.) -/
theorem C2_fresh_id_exactly_once (sha : Bytes → Bytes) (tr : List Op)
    (em : Address) (et pid : String) (sid : Option String) (d : String)
    (tx : Bytes) (ts ts' : Nat) (id : Bytes) (s' : ContractState)
    (hfresh : mapGet (run sha tr).events (eventId sha tx ts) = none)
    (hok : record_event_auth sha (run sha tr) em et pid sid d tx ts = .ok (id, s'))
    (hday : ts' / 86400 = ts / 86400) :
    ((get_events_by_entity s' pid).filter (fun e => e.event_id = id)).length = 1 ∧
    ((get_events_by_contract s' em).filter (fun e => e.event_id = id)).length = 1 ∧
    ((get_events_by_type_and_time s' et ts').filter (fun e => e.event_id = id)).length = 1 := by
  obtain ⟨m, hm, hflag, hr⟩ :=
    (record_event_auth_ok_iff sha (run sha tr) em et pid sid d tx ts _).mp hok
  have hid : id = eventId sha tx ts := congrArg Prod.fst hr
  have hs' : s' = recordPost sha (run sha tr) em et pid sid d tx ts := congrArg Prod.snd hr
  subst hs'
  subst hid
  have holdE : ∀ x ∈ (mapGet (run sha tr).entityIndex pid).getD [],
      (mapGet (run sha tr).events x).isSome := by
    cases hb : mapGet (run sha tr).entityIndex pid with
    | none => simp [hb]
    | some l =>
      intro x hx
      exact (wf_run sha tr).1 pid l hb x (by simpa [hb] using hx)
  have holdT : ∀ x ∈ (mapGet (run sha tr).typeTimeIndex (et, ts / 86400 * 86400)).getD [],
      (mapGet (run sha tr).events x).isSome := by
    cases hb : mapGet (run sha tr).typeTimeIndex (et, ts / 86400 * 86400) with
    | none => simp [hb]
    | some l =>
      intro x hx
      exact (wf_run sha tr).2.1 (et, ts / 86400 * 86400) l hb x (by simpa [hb] using hx)
  have holdC : ∀ x ∈ (mapGet (run sha tr).contractIndex em).getD [],
      (mapGet (run sha tr).events x).isSome := by
    cases hb : mapGet (run sha tr).contractIndex em with
    | none => simp [hb]
    | some l =>
      intro x hx
      exact (wf_run sha tr).2.2 em l hb x (by simpa [hb] using hx)
  refine ⟨?_, ?_, ?_⟩
  · have hq : get_events_by_entity (recordPost sha (run sha tr) em et pid sid d tx ts) pid =
        derefAll (recordPost sha (run sha tr) em et pid sid d tx ts)
          ((mapGet (run sha tr).entityIndex pid).getD [] ++ [eventId sha tx ts]) := by
      unfold get_events_by_entity
      rw [recordPost_entityIndex, mapGet_mapSet_self, Option.getD_some]
    rw [hq]
    exact count_one_in_bucket (run sha tr) _ _ (recordedEvent sha em et pid sid d tx ts) _
      (recordPost_events sha (run sha tr) em et pid sid d tx ts) rfl hfresh
      (kc_run sha tr) holdE
  · have hq : get_events_by_contract (recordPost sha (run sha tr) em et pid sid d tx ts) em =
        derefAll (recordPost sha (run sha tr) em et pid sid d tx ts)
          ((mapGet (run sha tr).contractIndex em).getD [] ++ [eventId sha tx ts]) := by
      unfold get_events_by_contract
      rw [recordPost_contractIndex, mapGet_mapSet_self, Option.getD_some]
    rw [hq]
    exact count_one_in_bucket (run sha tr) _ _ (recordedEvent sha em et pid sid d tx ts) _
      (recordPost_events sha (run sha tr) em et pid sid d tx ts) rfl hfresh
      (kc_run sha tr) holdC
  · have hkey : ts' / 86400 * 86400 = ts / 86400 * 86400 := by rw [hday]
    have hq : get_events_by_type_and_time (recordPost sha (run sha tr) em et pid sid d tx ts)
        et ts' =
        derefAll (recordPost sha (run sha tr) em et pid sid d tx ts)
          ((mapGet (run sha tr).typeTimeIndex (et, ts / 86400 * 86400)).getD []
            ++ [eventId sha tx ts]) := by
      simp only [get_events_by_type_and_time]
      rw [hkey, recordPost_typeTimeIndex, mapGet_mapSet_self, Option.getD_some]
    rw [hq]
    exact count_one_in_bucket (run sha tr) _ _ (recordedEvent sha em et pid sid d tx ts) _
      (recordPost_events sha (run sha tr) em et pid sid d tx ts) rfl hfresh
      (kc_run sha tr) holdT

/-- Witness for C2 (amended) at a concrete fresh submission. -/
theorem C2_fresh_id_exactly_once_witness :
    ((get_events_by_entity (recordPost idSha (run idSha [Op.initializeContract 0,
        Op.authorize_emitter 1]) 1 "T" "E" none "d" [7] 5) "E").filter
      (fun e => e.event_id = eventId idSha [7] 5)).length = 1 ∧
    ((get_events_by_contract (recordPost idSha (run idSha [Op.initializeContract 0,
        Op.authorize_emitter 1]) 1 "T" "E" none "d" [7] 5) 1).filter
      (fun e => e.event_id = eventId idSha [7] 5)).length = 1 ∧
    ((get_events_by_type_and_time (recordPost idSha (run idSha [Op.initializeContract 0,
        Op.authorize_emitter 1]) 1 "T" "E" none "d" [7] 5) "T" 5).filter
      (fun e => e.event_id = eventId idSha [7] 5)).length = 1 :=
  C2_fresh_id_exactly_once idSha [Op.initializeContract 0, Op.authorize_emitter 1]
    1 "T" "E" none "d" [7] 5 5 (eventId idSha [7] 5)
    (recordPost idSha (run idSha [Op.initializeContract 0, Op.authorize_emitter 1])
      1 "T" "E" none "d" [7] 5) (by decide) (by decide) rfl

/-- C3 counterexample: with two events indexed for entity "E",
`start = 1 < total = 2` and `limit = 2^32 - 1`, the claim promises
`min(limit, total - start) = 1` event, but the `u32` sum `start + limit`
wraps to `0`, the stop bound becomes `0`, and the call returns the empty
sequence. -/
theorem C3_counterexample :
    get_events_by_entity_paged (run idSha [Op.initializeContract 0, Op.authorize_emitter 1,
        Op.record_event_auth 1 "T" "E" none "d" [7] 5,
        Op.record_event_auth 1 "T" "E" none "d" [8] 5]) "E" 1 4294967295 = [] ∧
    ((mapGet (run idSha [Op.initializeContract 0, Op.authorize_emitter 1,
        Op.record_event_auth 1 "T" "E" none "d" [7] 5,
        Op.record_event_auth 1 "T" "E" none "d" [8] 5]).entityIndex "E").getD []).length = 2 ∧
    min 4294967295 (2 - 1) = 1 := by
  decide

/-- Witness for C3 (amended) at a concrete paged read. -/
theorem C3_paged_slice_witness :
    (((mapGet (run idSha [Op.initializeContract 0, Op.authorize_emitter 1,
        Op.record_event_auth 1 "T" "E" none "d" [7] 5,
        Op.record_event_auth 1 "T" "E" none "d" [8] 5]).entityIndex "E").getD []).length ≤ 1 →
       get_events_by_entity_paged (run idSha [Op.initializeContract 0, Op.authorize_emitter 1,
        Op.record_event_auth 1 "T" "E" none "d" [7] 5,
        Op.record_event_auth 1 "T" "E" none "d" [8] 5]) "E" 1 1 = []) ∧
    (1 < ((mapGet (run idSha [Op.initializeContract 0, Op.authorize_emitter 1,
        Op.record_event_auth 1 "T" "E" none "d" [7] 5,
        Op.record_event_auth 1 "T" "E" none "d" [8] 5]).entityIndex "E").getD []).length →
       (get_events_by_entity_paged (run idSha [Op.initializeContract 0, Op.authorize_emitter 1,
        Op.record_event_auth 1 "T" "E" none "d" [7] 5,
        Op.record_event_auth 1 "T" "E" none "d" [8] 5]) "E" 1 1).length =
         min 1 (((mapGet (run idSha [Op.initializeContract 0, Op.authorize_emitter 1,
        Op.record_event_auth 1 "T" "E" none "d" [7] 5,
        Op.record_event_auth 1 "T" "E" none "d" [8] 5]).entityIndex "E").getD []).length - 1) ∧
       get_events_by_entity_paged (run idSha [Op.initializeContract 0, Op.authorize_emitter 1,
        Op.record_event_auth 1 "T" "E" none "d" [7] 5,
        Op.record_event_auth 1 "T" "E" none "d" [8] 5]) "E" 1 1 =
         ((get_events_by_entity (run idSha [Op.initializeContract 0, Op.authorize_emitter 1,
        Op.record_event_auth 1 "T" "E" none "d" [7] 5,
        Op.record_event_auth 1 "T" "E" none "d" [8] 5]) "E").drop 1).take 1) :=
  C3_paged_slice idSha [Op.initializeContract 0, Op.authorize_emitter 1,
    Op.record_event_auth 1 "T" "E" none "d" [7] 5,
    Op.record_event_auth 1 "T" "E" none "d" [8] 5] "E" 1 1 (by decide)

/-- C4: the identifier returned by a successful `record_event_auth` equals
the host hash digest of the origin transaction reference concatenated with
the big-endian encoding of the timestamp; the derivation is a pure function
of those two inputs, so any two successful calls with the same
`(tx_hash, timestamp)` pair return the same identifier. -/
theorem C4_id_derivation (sha : Bytes → Bytes) (s₁ s₂ : ContractState)
    (em₁ em₂ : Address) (et₁ pid₁ et₂ pid₂ : String) (sid₁ sid₂ : Option String)
    (d₁ d₂ : String) (tx : Bytes) (ts : Nat) (id₁ id₂ : Bytes)
    (t₁ t₂ : ContractState)
    (h₁ : record_event_auth sha s₁ em₁ et₁ pid₁ sid₁ d₁ tx ts = .ok (id₁, t₁))
    (h₂ : record_event_auth sha s₂ em₂ et₂ pid₂ sid₂ d₂ tx ts = .ok (id₂, t₂)) :
    id₁ = sha (tx ++ u64be ts) ∧ id₂ = id₁ := by
  obtain ⟨m₁, _, _, hr₁⟩ :=
    (record_event_auth_ok_iff sha s₁ em₁ et₁ pid₁ sid₁ d₁ tx ts _).mp h₁
  obtain ⟨m₂, _, _, hr₂⟩ :=
    (record_event_auth_ok_iff sha s₂ em₂ et₂ pid₂ sid₂ d₂ tx ts _).mp h₂
  have h1 : id₁ = eventId sha tx ts := congrArg Prod.fst hr₁
  have h2 : id₂ = eventId sha tx ts := congrArg Prod.fst hr₂
  exact ⟨h1, by rw [h1, h2]⟩

/-- Witness for C4 at two concrete identical submissions. -/
theorem C4_id_derivation_witness :
    eventId idSha [7] 5 = idSha ([7] ++ u64be 5) ∧
    eventId idSha [7] 5 = eventId idSha [7] 5 :=
  C4_id_derivation idSha
    (run idSha [Op.initializeContract 0, Op.authorize_emitter 1])
    (run idSha [Op.initializeContract 0, Op.authorize_emitter 1])
    1 1 "T" "E" "T" "E" none none "d" "d" [7] 5
    (eventId idSha [7] 5) (eventId idSha [7] 5)
    (recordPost idSha (run idSha [Op.initializeContract 0, Op.authorize_emitter 1])
      1 "T" "E" none "d" [7] 5)
    (recordPost idSha (run idSha [Op.initializeContract 0, Op.authorize_emitter 1])
      1 "T" "E" none "d" [7] 5)
    (by decide) (by decide)

/-- C5: (1) after a successful `record_event_auth`, `get_event` of the
returned identifier yields the stored event, whose fields equal the
submitted inputs and whose timestamp is the host clock value at write time;
(2) in any run in which no invocation derives `id` as its event identifier,
`get_event id` returns `none` (an absent result, not an error). -/
theorem C5_get_event_roundtrip (sha : Bytes → Bytes) :
    (∀ s em et pid sid d tx ts id s',
       record_event_auth sha s em et pid sid d tx ts = .ok (id, s') →
       get_event s' id = some { event_id := id, timestamp := ts, event_type := et, emitting_contract := em, primary_entity_id := pid, secondary_entity_id := sid, event_data := d, tx_hash := tx }) ∧
    (∀ id tr, (∀ op ∈ tr, ¬ opStoresId sha id op) → get_event (run sha tr) id = none) := by
  constructor
  · intro s em et pid sid d tx ts id s' h
    obtain ⟨m, hm, hflag, hr⟩ :=
      (record_event_auth_ok_iff sha s em et pid sid d tx ts _).mp h
    have hid : id = eventId sha tx ts := congrArg Prod.fst hr
    have hs' : s' = recordPost sha s em et pid sid d tx ts := congrArg Prod.snd hr
    subst hs'
    subst hid
    unfold get_event
    rw [recordPost_events, mapGet_mapSet_self]
    rfl
  · intro id tr h
    exact not_stored_foldl sha id tr initState rfl h

/-- Witness for C5 at a concrete write plus a concrete never-stored read. -/
theorem C5_get_event_roundtrip_witness :
    get_event (recordPost idSha (run idSha [Op.initializeContract 0, Op.authorize_emitter 1])
        1 "T" "E" none "d" [7] 5) (eventId idSha [7] 5) =
      some { event_id := eventId idSha [7] 5, timestamp := 5, event_type := "T", emitting_contract := 1, primary_entity_id := "E", secondary_entity_id := none, event_data := "d", tx_hash := [7] } ∧
    get_event (run idSha [Op.initializeContract 0, Op.authorize_emitter 1]) [9] = none :=
  ⟨(C5_get_event_roundtrip idSha).1
      (run idSha [Op.initializeContract 0, Op.authorize_emitter 1])
      1 "T" "E" none "d" [7] 5 (eventId idSha [7] 5)
      (recordPost idSha (run idSha [Op.initializeContract 0, Op.authorize_emitter 1])
        1 "T" "E" none "d" [7] 5) (by decide),
   (C5_get_event_roundtrip idSha).2 [9] [Op.initializeContract 0, Op.authorize_emitter 1]
      (by decide)⟩

/-- C6: in any reachable state whose allow-list exists, a
`record_event_auth` call by an emitter whose flag is not set to `true`
fails with `NotAuthorized`, and the state after the call — the event store
and all three indices included — is exactly the state before it. -/
theorem C6_unauthorized_rejected (sha : Bytes → Bytes) (tr : List Op)
    (em : Address) (m : List (Address × Bool)) (et pid : String)
    (sid : Option String) (d : String) (tx : Bytes) (ts : Nat)
    (hm : (run sha tr).emitters = some m)
    (hflag : (mapGet m em).getD false = false) :
    record_event_auth sha (run sha tr) em et pid sid d tx ts = .error .NotAuthorized ∧
    run sha (tr ++ [Op.record_event_auth em et pid sid d tx ts]) = run sha tr := by
  have herr := record_event_auth_notAuthorized sha (run sha tr) em et pid sid d tx ts m hm hflag
  refine ⟨herr, ?_⟩
  show (tr ++ [Op.record_event_auth em et pid sid d tx ts]).foldl (applyOp sha) initState =
    run sha tr
  rw [List.foldl_append]
  show applyOp sha (run sha tr) (Op.record_event_auth em et pid sid d tx ts) = run sha tr
  simp [applyOp, stepResult, herr, Except.map]

/-- Witness for C6 at a concrete unauthorized emitter. -/
theorem C6_unauthorized_rejected_witness :
    record_event_auth idSha (run idSha [Op.initializeContract 0]) 1 "T" "E" none "d" [7] 5 =
      .error .NotAuthorized ∧
    run idSha ([Op.initializeContract 0] ++ [Op.record_event_auth 1 "T" "E" none "d" [7] 5]) =
      run idSha [Op.initializeContract 0] :=
  C6_unauthorized_rejected idSha [Op.initializeContract 0] 1 [] "T" "E" none "d" [7] 5
    (by decide) (by decide)

/-- C7 counterexample: the initial state (before any invocation) is
reachable, no `authorize_emitter` call has occurred, yet `is_authorized`
aborts on the missing allow-list instead of returning `false`. -/
theorem C7_counterexample :
    is_authorized (run idSha []) 0 = .error .MissingValue ∧
    is_authorized (run idSha []) 0 ≠ .ok false := by
  decide

/-- C7 (amended): in every reachable state in which the allow-list exists
(i.e. after initialization), `is_authorized e` returns `false` when no
`authorize_emitter e` call has occurred, and `is_authorized e` returns
`false` in the state produced by any successful `revoke_emitter e`; in a
state without the allow-list the call aborts instead of returning `false`
(see the counterexample). -/
theorem C7_default_false (sha : Bytes → Bytes) :
    (∀ e tr m, Op.authorize_emitter e ∉ tr → (run sha tr).emitters = some m →
       is_authorized (run sha tr) e = .ok false) ∧
    (∀ e s s', revoke_emitter s e = .ok s' → is_authorized s' e = .ok false) := by
  constructor
  · intro e tr m htr hm
    have hflag := flagNotTrue_run sha e tr htr m hm
    have hfalse : (mapGet m e).getD false = false := getD_false_of_ne_some_true _ hflag
    simp [is_authorized, exceptOfOption, hm, Bind.bind, Except.bind, hfalse]
  · intro e s s' h
    obtain ⟨m, hm, rfl⟩ := revoke_emitter_ok s e s' h
    simp [is_authorized, exceptOfOption, Bind.bind, Except.bind, mapGet_mapSet_self]

/-- Witness for C7 (amended): an initialized state with no authorization of
emitter 2, and a concrete revocation of emitter 1. -/
theorem C7_default_false_witness :
    is_authorized (run idSha [Op.initializeContract 0]) 2 = .ok false ∧
    is_authorized { run idSha [Op.initializeContract 0, Op.authorize_emitter 1] with emitters := some (mapSet (mapSet ([] : List (Address × Bool)) 1 true) 1 false) } 1 = .ok false :=
  ⟨(C7_default_false idSha).1 2 [Op.initializeContract 0] [] (by decide) (by decide),
   (C7_default_false idSha).2 1
     (run idSha [Op.initializeContract 0, Op.authorize_emitter 1]) _ (by decide)⟩

/-- C8: a successful `record_event_auth` leaves the liveness of all four
keys it touched — the event record, the entity bucket, the type+day bucket
and the contract bucket — at or above the fixed ~30-day horizon of 535680
ledgers, unconditionally. -/
theorem C8_ttl_renewed (sha : Bytes → Bytes) (s : ContractState) (em : Address)
    (et pid : String) (sid : Option String) (d : String) (tx : Bytes) (ts : Nat)
    (id : Bytes) (s' : ContractState)
    (h : record_event_auth sha s em et pid sid d tx ts = .ok (id, s')) :
    ttlHorizon ≤ ttlGet s' (DataKey.Events id) ∧
    ttlHorizon ≤ ttlGet s' (DataKey.EntityIndex pid) ∧
    ttlHorizon ≤ ttlGet s' (DataKey.TypeTimeIndex (et, ts / 86400 * 86400)) ∧
    ttlHorizon ≤ ttlGet s' (DataKey.ContractIndex em) := by
  obtain ⟨m, hm, hflag, hr⟩ :=
    (record_event_auth_ok_iff sha s em et pid sid d tx ts _).mp h
  have hid : id = eventId sha tx ts := congrArg Prod.fst hr
  have hs' : s' = recordPost sha s em et pid sid d tx ts := congrArg Prod.snd hr
  subst hs'
  subst hid
  unfold ttlGet
  rw [recordPost_ttl]
  refine ⟨?_, ?_, ?_, ?_⟩
  · rw [ttlExtend_other _ (DataKey.ContractIndex em)
        (DataKey.Events (eventId sha tx ts)) (fun hh => nomatch hh),
      ttlExtend_other _ (DataKey.TypeTimeIndex (et, ts / 86400 * 86400))
        (DataKey.Events (eventId sha tx ts)) (fun hh => nomatch hh),
      ttlExtend_other _ (DataKey.EntityIndex pid)
        (DataKey.Events (eventId sha tx ts)) (fun hh => nomatch hh)]
    exact ttlExtend_self _ _
  · rw [ttlExtend_other _ (DataKey.ContractIndex em)
        (DataKey.EntityIndex pid) (fun hh => nomatch hh),
      ttlExtend_other _ (DataKey.TypeTimeIndex (et, ts / 86400 * 86400))
        (DataKey.EntityIndex pid) (fun hh => nomatch hh)]
    exact ttlExtend_self _ _
  · rw [ttlExtend_other _ (DataKey.ContractIndex em)
        (DataKey.TypeTimeIndex (et, ts / 86400 * 86400)) (fun hh => nomatch hh)]
    exact ttlExtend_self _ _
  · exact ttlExtend_self _ _

/-- Witness for C8 at a concrete successful write. -/
theorem C8_ttl_renewed_witness :
    ttlHorizon ≤ ttlGet (recordPost idSha (run idSha [Op.initializeContract 0,
        Op.authorize_emitter 1]) 1 "T" "E" none "d" [7] 5)
      (DataKey.Events (eventId idSha [7] 5)) ∧
    ttlHorizon ≤ ttlGet (recordPost idSha (run idSha [Op.initializeContract 0,
        Op.authorize_emitter 1]) 1 "T" "E" none "d" [7] 5)
      (DataKey.EntityIndex "E") ∧
    ttlHorizon ≤ ttlGet (recordPost idSha (run idSha [Op.initializeContract 0,
        Op.authorize_emitter 1]) 1 "T" "E" none "d" [7] 5)
      (DataKey.TypeTimeIndex ("T", 5 / 86400 * 86400)) ∧
    ttlHorizon ≤ ttlGet (recordPost idSha (run idSha [Op.initializeContract 0,
        Op.authorize_emitter 1]) 1 "T" "E" none "d" [7] 5)
      (DataKey.ContractIndex 1) :=
  C8_ttl_renewed idSha (run idSha [Op.initializeContract 0, Op.authorize_emitter 1])
    1 "T" "E" none "d" [7] 5 (eventId idSha [7] 5)
    (recordPost idSha (run idSha [Op.initializeContract 0, Op.authorize_emitter 1])
      1 "T" "E" none "d" [7] 5) (by decide)

/-- C9: (1) `initialize` on an uninitialized state succeeds, setting the
admin identity and an empty allow-list; (2) from any reachable state that
already has an admin, a further `initialize` fails with `AlreadyInitialized`
and the run state — admin and allow-list included — is unchanged; (3) the
admin identity, once set, is preserved by every invocation. -/
theorem C9_initialize_once (sha : Bytes → Bytes) :
    (∀ s a, s.admin = none →
       initializeContract s a = .ok { s with admin := some a, emitters := some [] }) ∧
    (∀ tr a a0, (run sha tr).admin = some a0 →
       initializeContract (run sha tr) a = .error .AlreadyInitialized ∧
       run sha (tr ++ [Op.initializeContract a]) = run sha tr) ∧
    (∀ s op a0, s.admin = some a0 → (applyOp sha s op).admin = some a0) := by
  refine ⟨?_, ?_, ?_⟩
  · intro s a h
    simp [initializeContract, h]
  · intro tr a a0 h
    have herr : initializeContract (run sha tr) a = .error .AlreadyInitialized := by
      simp [initializeContract, h]
    refine ⟨herr, ?_⟩
    show (tr ++ [Op.initializeContract a]).foldl (applyOp sha) initState = run sha tr
    rw [List.foldl_append]
    show applyOp sha (run sha tr) (Op.initializeContract a) = run sha tr
    simp [applyOp, stepResult, herr]
  · exact fun s op a0 h => admin_applyOp sha s op a0 h

/-- Witness for C9 at a concrete first and second initialization. -/
theorem C9_initialize_once_witness :
    initializeContract initState 0 =
      .ok { initState with admin := some 0, emitters := some [] } ∧
    (initializeContract (run idSha [Op.initializeContract 0]) 1 =
        .error .AlreadyInitialized ∧
      run idSha ([Op.initializeContract 0] ++ [Op.initializeContract 1]) =
        run idSha [Op.initializeContract 0]) ∧
    (applyOp idSha (run idSha [Op.initializeContract 0])
      (Op.authorize_emitter 1)).admin = some 0 :=
  ⟨(C9_initialize_once idSha).1 initState 0 rfl,
   (C9_initialize_once idSha).2.1 [Op.initializeContract 0] 1 0 (by decide),
   (C9_initialize_once idSha).2.2 (run idSha [Op.initializeContract 0])
     (Op.authorize_emitter 1) 0 (by decide)⟩

/-- C10: the exposed `record_event` entry point fails unconditionally for
every state and input, before reading or writing any storage; as an
invocation it never changes the run state (no event persisted, no index
touched, no identifier returned); only `record_event_auth` performs the
write path. -/
theorem C10_record_event_stub (sha : Bytes → Bytes) :
    (∀ s et pid sid d tx, record_event s et pid sid d tx = .error .UseRecordEventAuth) ∧
    (∀ tr et pid sid d tx,
       run sha (tr ++ [Op.record_event et pid sid d tx]) = run sha tr) := by
  constructor
  · intro s et pid sid d tx
    rfl
  · intro tr et pid sid d tx
    show (tr ++ [Op.record_event et pid sid d tx]).foldl (applyOp sha) initState = run sha tr
    rw [List.foldl_append]
    rfl

end AuditTrail
